import Mathlib

/-!
Shallow embedding of the startracker pixel pipeline (cameraframe.rs,
framestats.rs, starfinder.rs, serfile.rs) and verification of its
specification.

Modelling conventions:
* Machine integers (`u8`, `u16`, `i32`, `i64`, `usize`) are modelled as
  `Nat`/`Int`; none of the verified code paths overflow for the sensor
  sample ranges involved, and indices stay in `Nat`.
* `f64` arithmetic on sample values (means, centroids, masses) is modelled
  exactly over `ℚ`; the only square root (the standard deviation) is kept
  as the rational radicand, with `Real.sqrt` applied in theorem statements.
* Rust slice indexing panics out of bounds; bounds-checked reads are
  modelled with an explicit `ReadResult` that separates the library's own
  `IndexOutOfBounds` error from a fatal panic.  In the interior of
  `find_stars`, where the caller contract `samples.len() == rows*cols`
  makes every access in bounds, reads use `List.getD`.
* `SystemTime::now()` (used by the `zeros` constructor) is passed in as an
  explicit argument.
-/

/-- Pixel linearization order, from `cameraframe.rs`. -/
inductive PixelOrder where
  | RowMajor
  | ColMajor
deriving DecidableEq, Repr

/-- Frame timestamp: microseconds since the epoch 0001-01-01T00:00:00 UTC
plus a nanosecond remainder, mirroring the `chrono` duration arithmetic in
`serfile.rs`. -/
structure FrameTime where
  usecs : Nat
  nsecs : Nat
deriving DecidableEq, Repr

/-- `CameraFrameMono<T>` from `cameraframe.rs`; the sample type `T`
(`u8`/`u16`, convertible into `i64`/`i32`/`f64`) is modelled as `Int`. -/
structure CameraFrameMono where
  rows : Nat
  cols : Nat
  bit_depth : Nat
  rawdata : List Int
  pixel_order : PixelOrder
  time : FrameTime
deriving DecidableEq, Repr

namespace CameraFrameMono

/-- The `zeros` constructor: all-zero buffer, ColMajor, timestamp = now
(passed explicitly). -/
def zeros (rows cols bit_depth : Nat) (now : FrameTime) : CameraFrameMono :=
  { rows := rows
    cols := cols
    bit_depth := bit_depth
    pixel_order := PixelOrder.ColMajor
    rawdata := List.replicate (rows * cols) 0
    time := now }

/-- The from-data constructor `CameraFrameMono::new`: copies the given
samples verbatim, with no validation of `data.len()`. -/
def new (rows cols bit_depth : Nat) (pixel_order : PixelOrder)
    (time : FrameTime) (data : List Int) : CameraFrameMono :=
  { rows := rows
    cols := cols
    bit_depth := bit_depth
    pixel_order := pixel_order
    rawdata := data
    time := time }

end CameraFrameMono

/-- Outcome of a read against a frame: `ok` a value, `oob` the library's
`CameraFrameError::IndexOutOfBounds(index)` error, or `panic` for a fatal
out-of-bounds raw slice access. -/
inductive ReadResult (α : Type) where
  | ok (v : α)
  | oob (index : Nat)
  | panic
deriving DecidableEq, Repr

/-- Whether a read ended in the library's `IndexOutOfBounds` error. -/
def ReadResult.isErr : ReadResult α → Bool
  | .oob _ => true
  | _ => false

namespace CameraFrameMono

/-- The bounds-checked flat read `at(index)` from the `Get<usize, T>`
implementation: the original guard compares `index > rows*cols`, and on
passing the guard indexes the raw slice (which panics when the index is
out of the slice's range). -/
def atFlat (f : CameraFrameMono) (index : Nat) : ReadResult Int :=
  if index > f.rows * f.cols then
    .oob index
  else
    match f.rawdata.get? index with
    | some v => .ok v
    | none => .panic

/-- The linear offset computed by the bounds-checked 2D read `at(r, c)`
in the `Get<(usize,usize), T>` implementation. -/
def atOffset (f : CameraFrameMono) (r c : Nat) : Nat :=
  match f.pixel_order with
  | .ColMajor => c * f.rows + r
  | .RowMajor => r * f.cols + c

/-- The bounds-checked 2D read `at(r, c)`: computes the order-dependent
offset, rejects `r >= rows || c >= cols` with `IndexOutOfBounds(index)`,
then indexes the raw slice. -/
def at2 (f : CameraFrameMono) (r c : Nat) : ReadResult Int :=
  let index := atOffset f r c
  if f.rows ≤ r ∨ f.cols ≤ c then
    .oob index
  else
    match f.rawdata.get? index with
    | some v => .ok v
    | none => .panic

/-- The linear offset used by the raw `Index<(usize,usize)>` operator. -/
def rawOffset (f : CameraFrameMono) (r c : Nat) : Nat :=
  match f.pixel_order with
  | .ColMajor => c * f.rows + r
  | .RowMajor => r * f.cols + c

/-- The raw (unchecked) 2D indexing operator `frame[(r, c)]`; `none`
models the out-of-bounds panic. -/
def rawIndex2 (f : CameraFrameMono) (r c : Nat) : Option Int :=
  f.rawdata.get? (rawOffset f r c)

end CameraFrameMono

/-! ## Frame statistics (`framestats.rs`) -/

/-- `std::i64::MAX`, the initial running minimum. -/
def i64Max : Int := 9223372036854775807

/-- `std::i64::MIN`, the initial running maximum. -/
def i64Min : Int := -9223372036854775808

/-- `FrameStats` from `framestats.rs`.  The code stores
`std_dev : f64 = sqrt((sumsq - count*mean^2)/(count-1))`; the model keeps
the exact rational radicand in `sample_variance`, so the code's standard
deviation is `Real.sqrt sample_variance`. -/
structure FrameStats where
  min : Int
  max : Int
  mean : ℚ
  median : Int
  sample_variance : ℚ
deriving DecidableEq, Repr

/-- `FrameStats::new`: one pass accumulating min/max/sum/sumsq over the
raw samples, then mean, sample standard deviation, and the median as
element `count/2` of an ascending sort of a copy of the values.  The
indexing `values[count/2]` panics on an empty frame, modelled by `none`. -/
def FrameStats.new (frame : CameraFrameMono) : Option FrameStats :=
  let raw := frame.rawdata
  let acc := raw.foldl
    (fun (a : Int × Int × Int × Int) val =>
      (a.1 + val, a.2.1 + val * val,
       if val < a.2.2.1 then val else a.2.2.1,
       if val > a.2.2.2 then val else a.2.2.2))
    (0, 0, i64Max, i64Min)
  let count := raw.length
  let values := List.insertionSort (· ≤ ·) raw
  match values.get? (count / 2) with
  | none => none
  | some median =>
    let mean : ℚ := (acc.1 : ℚ) / (count : ℚ)
    let sample_variance : ℚ :=
      ((acc.2.1 : ℚ) - (count : ℚ) * mean * mean) / ((count : ℚ) - 1)
    some
      { min := acc.2.2.1
        max := acc.2.2.2
        mean := mean
        median := median
        sample_variance := sample_variance }

/-! ## Star detection (`starfinder.rs`)

`find_stars` first computes `mean` and `std_dev` of the samples in `f64`
and truncates `mean + threshold*std_dev` to the `i32` detection threshold;
everything after that point compares samples against that integer
threshold.  The embedding takes the integer threshold `thresh` as a
parameter and models the labeling pass, the size filter, the
centroid/mass computation and the final sort exactly. -/

/-- One detected segment: member coordinates in discovery order, centroid,
and mass (`f64` values modelled over `ℚ`). -/
structure Segment where
  indices : List (Nat × Nat)
  centroid : ℚ × ℚ
  mass : ℚ
deriving DecidableEq

/-- State of the forward labeling pass: the per-pixel label array `mask`
(`-1` = unlabeled), the member lists of the segments allocated so far, and
`segment_count` (always the number of allocated segments). -/
structure LabelState where
  mask : List Int
  segs : List (List (Nat × Nat))
  segment_count : Int
deriving DecidableEq

/-- The common body of the four forward-neighbor checks: if the neighbor
`nbr` is still unlabeled and exceeds the threshold, assign it the current
pixel's label `mask[idx]` and append its `(row, col)` to that segment. -/
def tryLink (pix : List Int) (cols : Nat) (thresh : Int) (idx : Nat)
    (s : LabelState) (nbr : Nat) : LabelState :=
  if s.mask.getD nbr (-1) = -1 ∧ thresh < pix.getD nbr 0 then
    let lbl := s.mask.getD idx (-1)
    { s with
      mask := s.mask.set nbr lbl
      segs := List.modify (fun l => l ++ [(nbr / cols, nbr % cols)]) lbl.toNat s.segs }
  else s

/-- One iteration of the labeling pass at pixel `idx`: if the pixel
exceeds the threshold, start a new segment when it is still unlabeled, and
then propagate its label to the forward neighbors right, below-left,
below, and below-right under the guards in the source. -/
def stepPix (pix : List Int) (rows cols : Nat) (thresh : Int)
    (s : LabelState) (idx : Nat) : LabelState :=
  if thresh < pix.getD idx 0 then
    let s1 :=
      if s.mask.getD idx (-1) = -1 then
        { mask := s.mask.set idx s.segment_count
          segs := s.segs ++ [[(idx / cols, idx % cols)]]
          segment_count := s.segment_count + 1 }
      else s
    let s2 :=
      if idx % cols + 1 < cols then tryLink pix cols thresh idx s1 (idx + 1) else s1
    if idx / cols < rows - 1 then
      let s3 :=
        if 0 < idx % cols then tryLink pix cols thresh idx s2 (idx + cols - 1) else s2
      let s4 := tryLink pix cols thresh idx s3 (idx + cols)
      if idx % cols + 1 < cols then tryLink pix cols thresh idx s4 (idx + cols + 1) else s4
    else s2
  else s

/-- The full forward raster pass over all pixel indices in ascending
order, starting from an all-`-1` mask and no segments. -/
def labelPass (pix : List Int) (rows cols : Nat) (thresh : Int) : LabelState :=
  (List.range pix.length).foldl (stepPix pix rows cols thresh)
    { mask := List.replicate pix.length (-1), segs := [], segment_count := 0 }

/-- Centroid and mass of one surviving segment, as in the source: the
unweighted center `(crow, ccol)` of the member coordinates, then one pass
accumulating `sumx += val*(col - ccol)`, `sumy += val*(crow - crow)` and
`summass += val`, and finally
`centroid = (sumx/summass + ccol, sumy/summass + crow)`. -/
def computeSegment (pix : List Int) (cols : Nat) (ind : List (Nat × Nat)) : Segment :=
  let acc := ind.foldl (fun (a : Nat × Nat) rc => (a.1 + rc.1, a.2 + rc.2)) (0, 0)
  let crow : ℚ := (acc.1 : ℚ) / (ind.length : ℚ)
  let ccol : ℚ := (acc.2 : ℚ) / (ind.length : ℚ)
  let res := ind.foldl
    (fun (a : ℚ × ℚ × ℚ) rc =>
      let val : ℚ := (pix.getD (rc.1 * cols + rc.2) 0 : Int)
      (a.1 + val * ((rc.2 : ℚ) - ccol),
       a.2.1 + val * (crow - crow),
       a.2.2 + val))
    (0, 0, 0)
  { indices := ind
    centroid := (res.1 / res.2.2 + ccol, res.2.1 / res.2.2 + crow)
    mass := res.2.2 }

/-- `find_stars` from the integer threshold on: the labeling pass, the
`retain` size filter, centroid/mass computation, and the ascending sort by
mass (`sort_by` is a stable sort; modelled by the stable insertion sort,
which produces the same list). -/
def find_stars (pix : List Int) (rows cols : Nat) (thresh : Int)
    (minsize : Nat) : List Segment :=
  let st := labelPass pix rows cols thresh
  let kept := st.segs.filter (fun ind => decide (minsize ≤ ind.length))
  List.insertionSort (fun a b => a.mass ≤ b.mass) (kept.map (computeSegment pix cols))

/-! ## SER container parsing (`serfile.rs`)

`SERFile::new` reads the whole file; the model takes the file's bytes as a
`List Nat` (each < 256) and performs the same sequence of checked reads.
The file-existence check and `File::open` are outside the byte-level model;
every later failure is represented in `SERError`. -/

/-- Errors of the container parse.  `utf8Error` models the `Utf8Error`
propagated by the `?` on `std::str::from_utf8`; `ioError` models a failed
`read_exact`; `panicChunks` models the `chunks_exact(0)` panic. -/
inductive SERError where
  | invalidHeader
  | invalidColorID (v : Nat)
  | invalidEndian (v : Nat)
  | ioError
  | utf8Error
  | panicChunks
deriving DecidableEq, Repr

/-- `ColorID` from `serfile.rs`. -/
inductive ColorID where
  | Mono
  | BayerRGGB
  | BayerGRBG
  | BayerBGRG
  | BayerBGGR
  | BayerCYYM
  | BayerYCMY
  | BayerYMCY
  | BayerMYYC
  | RGB
  | BGR
deriving DecidableEq, Repr

/-- `TryFrom<u32> for ColorID`: the enumerated table, any other value is
`InvalidColorID(v)`. -/
def ColorID.tryFrom (v : Nat) : Except SERError ColorID :=
  if v = 0 then .ok .Mono
  else if v = 8 then .ok .BayerRGGB
  else if v = 9 then .ok .BayerGRBG
  else if v = 10 then .ok .BayerBGRG
  else if v = 11 then .ok .BayerBGGR
  else if v = 16 then .ok .BayerCYYM
  else if v = 17 then .ok .BayerYCMY
  else if v = 18 then .ok .BayerYMCY
  else if v = 19 then .ok .BayerMYYC
  else if v = 100 then .ok .RGB
  else if v = 101 then .ok .BGR
  else .error (.invalidColorID v)

/-- `Endian` from `serfile.rs`. -/
inductive Endian where
  | Little
  | Big
deriving DecidableEq, Repr

/-- `TryFrom<u32> for Endian`: 0 = Little, 1 = Big, otherwise
`InvalidEndian(v)`. -/
def Endian.tryFrom (v : Nat) : Except SERError Endian :=
  if v = 0 then .ok .Little
  else if v = 1 then .ok .Big
  else .error (.invalidEndian v)

/-- Little-endian value of a byte list (`u32::from_le_bytes` /
`u64::from_le_bytes` / the `u16` reinterpretation, depending on length). -/
def leVal : List Nat → Nat
  | [] => 0
  | b :: rest => b + 256 * leVal rest

/-- Whether a Unicode scalar has the White_Space property (the set used by
`char::is_whitespace`, hence by `str::trim`). -/
def isRustWhitespace (c : Nat) : Bool :=
  c = 0x09 ∨ c = 0x0A ∨ c = 0x0B ∨ c = 0x0C ∨ c = 0x0D ∨ c = 0x20 ∨
  c = 0x85 ∨ c = 0xA0 ∨ c = 0x1680 ∨ (0x2000 ≤ c ∧ c ≤ 0x200A) ∨
  c = 0x2028 ∨ c = 0x2029 ∨ c = 0x202F ∨ c = 0x205F ∨ c = 0x3000

/-- `str::trim`: strip leading and trailing whitespace scalars. -/
def rustTrim (s : List Nat) : List Nat :=
  ((s.dropWhile isRustWhitespace).reverse.dropWhile isRustWhitespace).reverse

/-- Whether a byte is a UTF-8 continuation byte. -/
def isCont (b : Nat) : Bool := 0x80 ≤ b ∧ b ≤ 0xBF

/-- Strict UTF-8 decoding of a byte list into Unicode scalar values, as
`std::str::from_utf8` validates it (overlong encodings, surrogates and
values above U+10FFFF rejected).  `none` models a `Utf8Error`. -/
def utf8Decode : List Nat → Option (List Nat)
  | [] => some []
  | b :: rest =>
    if b < 0x80 then (utf8Decode rest).map (b :: ·)
    else if 0xC2 ≤ b ∧ b ≤ 0xDF then
      match rest with
      | c1 :: rest2 =>
        if isCont c1 then
          (utf8Decode rest2).map (((b - 0xC0) * 0x40 + (c1 - 0x80)) :: ·)
        else none
      | [] => none
    else if 0xE0 ≤ b ∧ b ≤ 0xEF then
      match rest with
      | c1 :: c2 :: rest2 =>
        if (if b = 0xE0 then decide (0xA0 ≤ c1 ∧ c1 ≤ 0xBF)
            else if b = 0xED then decide (0x80 ≤ c1 ∧ c1 ≤ 0x9F)
            else isCont c1) ∧ isCont c2 then
          (utf8Decode rest2).map
            (((b - 0xE0) * 0x1000 + (c1 - 0x80) * 0x40 + (c2 - 0x80)) :: ·)
        else none
      | _ => none
    else if 0xF0 ≤ b ∧ b ≤ 0xF4 then
      match rest with
      | c1 :: c2 :: c3 :: rest2 =>
        if (if b = 0xF0 then decide (0x90 ≤ c1 ∧ c1 ≤ 0xBF)
            else if b = 0xF4 then decide (0x80 ≤ c1 ∧ c1 ≤ 0x8F)
            else isCont c1) ∧ isCont c2 ∧ isCont c3 then
          (utf8Decode rest2).map
            (((b - 0xF0) * 0x40000 + (c1 - 0x80) * 0x1000 +
              (c2 - 0x80) * 0x40 + (c3 - 0x80)) :: ·)
        else none
      | _ => none
    else none

/-- Fuel-driven worker for `chunksExact`; the fuel is an upper bound on
the list length, so the recursion is structural and computable by the
kernel. -/
def chunksExactGo (k : Nat) : Nat → List α → List (List α)
  | 0, _ => []
  | fuel + 1, l =>
    if 0 < k ∧ k ≤ l.length then l.take k :: chunksExactGo k fuel (l.drop k)
    else []

/-- `slice::chunks_exact(k)` for `k > 0`: the maximal list of consecutive
`k`-element chunks, the remainder dropped.  (The `k = 0` panic is handled
at the call site.) -/
def chunksExact (k : Nat) (l : List α) : List (List α) :=
  chunksExactGo k l.length l

/-- The 14 ASCII scalars of the magic string. -/
def magicScalars : List Nat := [76, 85, 67, 65, 77, 45, 82, 69, 67, 79, 82, 68, 69, 82]

/-- The width-erased `CameraFrame` variant from `cameraframe.rs`. -/
inductive CameraFrame where
  | Mono8 (f : CameraFrameMono)
  | Mono16 (f : CameraFrameMono)
deriving DecidableEq, Repr

/-- Descriptor dispatch `CameraFrame::rows`. -/
def CameraFrame.rows : CameraFrame → Nat
  | .Mono8 f => f.rows
  | .Mono16 f => f.rows

/-- Descriptor dispatch `CameraFrame::cols`. -/
def CameraFrame.cols : CameraFrame → Nat
  | .Mono8 f => f.cols
  | .Mono16 f => f.cols

/-- Descriptor dispatch `CameraFrame::pixel_order`. -/
def CameraFrame.pixelOrder : CameraFrame → PixelOrder
  | .Mono8 f => f.pixel_order
  | .Mono16 f => f.pixel_order

/-- Whether the variant is the 16-bit buffer. -/
def CameraFrame.isMono16 : CameraFrame → Bool
  | .Mono8 _ => false
  | .Mono16 _ => true

/-- Reinterpretation of a frame's payload bytes as little-endian 16-bit
samples (`from_raw_parts(x.as_ptr() as *const u16, x.len()/2)` on a
little-endian host): consecutive byte pairs, an odd trailing byte
dropped. -/
def u16leDecode (l : List Nat) : List Int :=
  (chunksExact 2 l).map (fun p => (leVal p : Int))

/-- The parsed container: header metadata (text fields as trimmed Unicode
scalar lists) and the decoded frames. -/
structure SERFile where
  color_id : ColorID
  endian : Endian
  width : Nat
  height : Nat
  frame_count : Nat
  bit_depth : Nat
  instrument : List Nat
  observer : List Nat
  telescope : List Nat
  frames : List CameraFrame
deriving DecidableEq, Repr

/-- `SERFile::new` over the file's bytes: read the 178-byte header, check
the magic string (via `from_utf8`), decode the little-endian header
fields and the three text fields, read `frame_count * frame_bytes` payload
bytes and `frame_count * 8` timestamp bytes, decode the timestamps
(`usecs = val/10`, `nsecs = (val % 100) * 10`), and materialize each
payload chunk as a 16-bit ColMajor frame via `CameraFrameMono::new`. -/
def SERFile.new (input : List Nat) : Except SERError SERFile :=
  if input.length < 178 then .error .ioError
  else
    let header := input.take 178
    match utf8Decode (header.take 14) with
    | none => .error .utf8Error
    | some magic =>
      if magic ≠ magicScalars then .error .invalidHeader
      else
        match ColorID.tryFrom (leVal ((header.drop 18).take 4)) with
        | .error e => .error e
        | .ok color_id =>
          match Endian.tryFrom (leVal ((header.drop 22).take 4)) with
          | .error e => .error e
          | .ok endian =>
            let width := leVal ((header.drop 26).take 4)
            let height := leVal ((header.drop 30).take 4)
            let bit_depth := leVal ((header.drop 34).take 4)
            let frame_count := leVal ((header.drop 38).take 4)
            match utf8Decode ((header.drop 42).take 40) with
            | none => .error .utf8Error
            | some observer =>
              match utf8Decode ((header.drop 82).take 40) with
              | none => .error .utf8Error
              | some instrument =>
                match utf8Decode ((header.drop 122).take 30) with
                | none => .error .utf8Error
                | some telescope =>
                  let pixel_layers : Nat :=
                    match color_id with
                    | .RGB => 3
                    | .BGR => 3
                    | _ => 1
                  let byte_depth := (bit_depth + 7) / 8
                  let frame_bytes := width * height * byte_depth * pixel_layers
                  let rest := input.drop 178
                  if rest.length < frame_bytes * frame_count then .error .ioError
                  else
                    let frames_buf := rest.take (frame_bytes * frame_count)
                    let rest2 := rest.drop (frame_bytes * frame_count)
                    if rest2.length < frame_count * 8 then .error .ioError
                    else
                      let time_buf := rest2.take (frame_count * 8)
                      let frame_times : List FrameTime :=
                        (chunksExact 8 time_buf).map (fun x =>
                          let val := leVal x
                          { usecs := val / 10, nsecs := (val % 100) * 10 })
                      if frame_bytes = 0 then .error .panicChunks
                      else
                        let frames : List CameraFrame :=
                          (chunksExact frame_bytes frames_buf).enum.map
                            (fun ix => CameraFrame.Mono16
                              (CameraFrameMono.new width height bit_depth
                                PixelOrder.ColMajor
                                (frame_times.getD ix.1 { usecs := 0, nsecs := 0 })
                                (u16leDecode ix.2)))
                        .ok
                          { color_id := color_id
                            endian := endian
                            width := width
                            height := height
                            bit_depth := bit_depth
                            frame_count := frame_count
                            instrument := rustTrim instrument
                            observer := rustTrim observer
                            telescope := rustTrim telescope
                            frames := frames }

deriving instance DecidableEq for Except


/-! ## Fixtures and auxiliary definitions used by the verification -/

/-- A timestamp used by concrete frames in the theorems below. -/
def tZero : FrameTime := { usecs := 0, nsecs := 0 }

/-- Concrete 1x1 frame used for C3. -/
def fC3 : CameraFrameMono :=
  { rows := 1, cols := 1, bit_depth := 8, rawdata := [5],
    pixel_order := .ColMajor, time := tZero }

/-- Concrete frame used by the C9 witness. -/
def fC9 : CameraFrameMono :=
  { rows := 2, cols := 3, bit_depth := 8, rawdata := [1, 2, 3, 4, 5, 6],
    pixel_order := .RowMajor, time := tZero }

instance : IsTotal Segment (fun a b => a.mass ≤ b.mass) :=
  ⟨fun a b => le_total a.mass b.mass⟩

instance : IsTrans Segment (fun a b => a.mass ≤ b.mass) :=
  ⟨fun _ _ _ hab hbc => le_trans hab hbc⟩

/-- Running minimum with explicit initial value, as accumulated by the
statistics pass. -/
def runMin (mn : Int) (l : List Int) : Int :=
  l.foldl (fun m v => if v < m then v else m) mn

/-- Running maximum with explicit initial value, as accumulated by the
statistics pass. -/
def runMax (mx : Int) (l : List Int) : Int :=
  l.foldl (fun m v => if v > m then v else m) mx

/-- The frame holding the samples `[1,2,3,4,5]` of the specification's
statistics test. -/
def f5 : CameraFrameMono :=
  { rows := 1, cols := 5, bit_depth := 16, rawdata := [1, 2, 3, 4, 5],
    pixel_order := .RowMajor, time := tZero }

/-- The statistics record computed for `f5`, with the rational fields in
the exact shape `FrameStats.new` produces. -/
def s5 : FrameStats :=
  { min := 1, max := 5, mean := ((15 : ℤ) : ℚ) / ((5 : ℕ) : ℚ), median := 3,
    sample_variance :=
      (((55 : ℤ) : ℚ) - ((5 : ℕ) : ℚ) * (((15 : ℤ) : ℚ) / ((5 : ℕ) : ℚ))
          * (((15 : ℤ) : ℚ) / ((5 : ℕ) : ℚ))) / (((5 : ℕ) : ℚ) - 1) }

/-- The unweighted mean row of a segment's member coordinates (the
specification's "center row"). -/
def meanRow (ind : List (Nat × Nat)) : ℚ :=
  ((ind.map (fun rc => ((rc.1 : Nat) : ℚ))).sum) / ((ind.length : Nat) : ℚ)

/-- The unweighted mean column of a segment's member coordinates (the
specification's "center col"). -/
def meanCol (ind : List (Nat × Nat)) : ℚ :=
  ((ind.map (fun rc => ((rc.2 : Nat) : ℚ))).sum) / ((ind.length : Nat) : ℚ)

/-- The total mass of a segment: the sum of its members' pixel values. -/
def segMass (pix : List Int) (cols : Nat) (ind : List (Nat × Nat)) : ℚ :=
  (ind.map (fun rc => ((pix.getD (rc.1 * cols + rc.2) 0 : Int) : ℚ))).sum

/-- The specification's x-accumulation term
`sumx = sum of value*(col - centerCol)` over a segment's members. -/
def segSumX (pix : List Int) (cols : Nat) (ind : List (Nat × Nat)) : ℚ :=
  (ind.map (fun rc => ((pix.getD (rc.1 * cols + rc.2) 0 : Int) : ℚ)
    * ((rc.2 : ℚ) - meanCol ind))).sum

/-- Concrete 2x2 pixel field with the two bright pixels at (0,0) and
(1,1). -/
def pixC2 : List Int := [10, 0, 0, 10]

/-- The segment `find_stars` produces on `pixC2`. -/
def segC2 : Segment := computeSegment pixC2 2 [(0, 0), (1, 1)]

/-- The telescope field as the specification's layout table describes it:
a 40-byte field at offset 122, UTF-8 decoded and trimmed. -/
def telescopeSpec40 (input : List Nat) : Option (List Nat) :=
  (utf8Decode ((input.drop 122).take 40)).map rustTrim

/-- A 178-byte input whose first 14 bytes are NUL, differing from the
magic string. -/
def c5aInput : List Nat := List.replicate 178 0

/-- A 178-byte input with a correct magic string and the unmapped
color-encoding id 7. -/
def c5bInput : List Nat :=
  magicScalars ++ [0, 0, 0, 0] ++ [7, 0, 0, 0] ++ List.replicate 156 0

/-- A 178-byte input whose first 14 bytes are 0xFF (differing from the
magic string and not valid UTF-8) and whose color-encoding id is the
unmapped value 7. -/
def c5Bad : List Nat :=
  List.replicate 14 255 ++ [0, 0, 0, 0] ++ [7, 0, 0, 0] ++ List.replicate 156 0

/-- A well-formed 178-byte container with zero frames whose telescope
region (bytes 122..152) holds "TEL" padded with spaces, followed by ten
ASCII 'X' bytes at 152..162. -/
def c6Input : List Nat :=
  magicScalars ++ List.replicate 4 0 ++ List.replicate 4 0 ++
  List.replicate 4 0 ++ [1, 0, 0, 0] ++ [1, 0, 0, 0] ++ [8, 0, 0, 0] ++
  [0, 0, 0, 0] ++ List.replicate 80 0 ++ [84, 69, 76] ++
  List.replicate 27 32 ++ List.replicate 10 88 ++ List.replicate 16 0

/-- A well-formed 187-byte container: 1x1 mono frame, 8-bit, one frame of
one payload byte, one zero timestamp. -/
def c10Input : List Nat :=
  magicScalars ++ List.replicate 4 0 ++ [0, 0, 0, 0] ++ [0, 0, 0, 0] ++
  [1, 0, 0, 0] ++ [1, 0, 0, 0] ++ [8, 0, 0, 0] ++ [1, 0, 0, 0] ++
  List.replicate 136 0 ++ [7] ++ List.replicate 8 0

/-- The parse result of `c10Input`. -/
def c10Data : SERFile :=
  { color_id := .Mono
    endian := .Little
    width := 1
    height := 1
    frame_count := 1
    bit_depth := 8
    instrument := List.replicate 40 0
    observer := List.replicate 40 0
    telescope := List.replicate 30 0
    frames := [CameraFrame.Mono16
      { rows := 1, cols := 1, bit_depth := 8, rawdata := [],
        pixel_order := .ColMajor, time := { usecs := 0, nsecs := 0 } }] }

/-! ## Verification -/

set_option maxRecDepth 100000

/-- In-range 2D coordinates give an in-range column-major offset. -/
theorem colMajorOffset_lt (r c rows cols : Nat) (hr : r < rows) (hc : c < cols) :
    c * rows + r < rows * cols := by
  calc c * rows + r < c * rows + rows := by omega
    _ = (c + 1) * rows := by ring
    _ ≤ cols * rows := Nat.mul_le_mul_right _ hc
    _ = rows * cols := Nat.mul_comm _ _

/-- C9: for every frame satisfying the length invariant, every row and
column and both pixel orders, the bounds-checked 2D read `at(r,c)` and the
raw 2D indexing operator resolve to the same linear offset
(`c*rows + r` under ColMajor, `r*cols + c` under RowMajor); for in-range
coordinates both return the sample at that offset, and `at` fails with the
out-of-range error exactly when `r >= rows` or `c >= cols`. -/
theorem at2_agrees_with_raw_index (f : CameraFrameMono) (r c : Nat)
    (hlen : f.rawdata.length = f.rows * f.cols) :
    CameraFrameMono.atOffset f r c = CameraFrameMono.rawOffset f r c
    ∧ (r < f.rows → c < f.cols →
        CameraFrameMono.at2 f r c =
          .ok (f.rawdata.getD (CameraFrameMono.rawOffset f r c) 0)
        ∧ CameraFrameMono.rawIndex2 f r c =
          some (f.rawdata.getD (CameraFrameMono.rawOffset f r c) 0))
    ∧ ((CameraFrameMono.at2 f r c).isErr = true ↔ (f.rows ≤ r ∨ f.cols ≤ c)) := by
  have hoff : CameraFrameMono.atOffset f r c = CameraFrameMono.rawOffset f r c := by
    cases h : f.pixel_order <;> simp [CameraFrameMono.atOffset, CameraFrameMono.rawOffset, h]
  have hofflt : ∀ (hr : r < f.rows) (hc : c < f.cols),
      CameraFrameMono.rawOffset f r c < f.rawdata.length := by
    intro hr hc
    rw [hlen]
    cases h : f.pixel_order
    · simp only [CameraFrameMono.rawOffset, h]
      calc r * f.cols + c < r * f.cols + f.cols := by omega
        _ = (r + 1) * f.cols := by ring
        _ ≤ f.rows * f.cols := Nat.mul_le_mul_right _ hr
    · simp only [CameraFrameMono.rawOffset, h]
      exact colMajorOffset_lt r c f.rows f.cols hr hc
  refine ⟨hoff, ?_, ?_⟩
  · intro hr hc
    have hlt := hofflt hr hc
    have hget : f.rawdata.get? (CameraFrameMono.rawOffset f r c)
        = some (f.rawdata.getD (CameraFrameMono.rawOffset f r c) 0) := by
      rw [List.get?_eq_getElem?, List.getD_eq_getElem?_getD,
        List.getElem?_eq_getElem hlt]
      rfl
    constructor
    · simp only [CameraFrameMono.at2, hoff]
      rw [if_neg (by omega), hget]
    · simp only [CameraFrameMono.rawIndex2]
      exact hget
  · by_cases h : f.rows ≤ r ∨ f.cols ≤ c
    · simp [CameraFrameMono.at2, h, ReadResult.isErr]
    · have hr : r < f.rows := by omega
      have hc : c < f.cols := by omega
      have hget := hofflt hr hc
      simp only [CameraFrameMono.at2, hoff, if_neg h]
      rw [List.get?_eq_getElem?, List.getElem?_eq_getElem hget]
      simp [ReadResult.isErr, h]

/-- Witness for C9 at a concrete frame and coordinates. -/
theorem at2_agrees_with_raw_index_witness :
    fC9.rawdata.length = fC9.rows * fC9.cols
    ∧ (CameraFrameMono.atOffset fC9 1 2 = CameraFrameMono.rawOffset fC9 1 2
      ∧ (1 < fC9.rows → 2 < fC9.cols →
          CameraFrameMono.at2 fC9 1 2 =
            .ok (fC9.rawdata.getD (CameraFrameMono.rawOffset fC9 1 2) 0)
          ∧ CameraFrameMono.rawIndex2 fC9 1 2 =
            some (fC9.rawdata.getD (CameraFrameMono.rawOffset fC9 1 2) 0))
      ∧ ((CameraFrameMono.at2 fC9 1 2).isErr = true ↔ (fC9.rows ≤ 1 ∨ fC9.cols ≤ 2))) :=
  ⟨by decide, at2_agrees_with_raw_index fC9 1 2 (by decide)⟩

/-- C3: on a 1x1 frame with the length invariant, `at(0)` succeeds, but
`at(rows*cols) = at(1)` slips through the `index > rows*cols` guard and
panics on the raw slice access instead of returning the
`IndexOutOfBounds` error the specification requires. -/
theorem atFlat_off_by_one :
    CameraFrameMono.atFlat fC3 0 = .ok 5
    ∧ CameraFrameMono.atFlat fC3 1 = .panic
    ∧ (CameraFrameMono.atFlat fC3 1).isErr = false
    ∧ CameraFrameMono.atFlat fC3 2 = .oob 2 := by decide

/-- C4 counterexample: the from-data constructor accepts a sample list
whose length differs from `rows*cols`, so the invariant fails on a
constructor-reachable frame. -/
theorem new_no_length_validation :
    ¬ ((CameraFrameMono.new 1 2 8 .RowMajor tZero [0]).rawdata.length = 1 * 2) := by
  decide

/-- C4 (amended): the zeros constructor always establishes
`samples.len() == rows*cols`; the from-data constructor copies the given
samples verbatim without validation, so it establishes the invariant
exactly when the supplied data already has length `rows*cols`. -/
theorem constructors_length_invariant (rows cols bit_depth : Nat) (now : FrameTime)
    (order : PixelOrder) (time : FrameTime) (data : List Int) :
    (CameraFrameMono.zeros rows cols bit_depth now).rawdata.length = rows * cols
    ∧ ((CameraFrameMono.new rows cols bit_depth order time data).rawdata.length
        = rows * cols ↔ data.length = rows * cols) :=
  ⟨List.length_replicate _ _, Iff.rfl⟩

/-- C8: for every input (and every integer threshold the floating-point
front end may produce, and every minimum size), the sequence of segments
returned by `find_stars` is non-decreasing in mass. -/
theorem find_stars_sorted_by_mass (pix : List Int) (rows cols : Nat)
    (thresh : Int) (minsize : Nat) :
    List.Pairwise (fun a b => a.mass ≤ b.mass)
      (find_stars pix rows cols thresh minsize) :=
  List.sorted_insertionSort _ _

/-- The accumulator of the statistics pass splits into sum, sum of
squares, running minimum and running maximum. -/
theorem statsFold_eq (l : List Int) (a b mn mx : Int) :
    l.foldl
      (fun (acc : Int × Int × Int × Int) val =>
        (acc.1 + val, acc.2.1 + val * val,
         if val < acc.2.2.1 then val else acc.2.2.1,
         if val > acc.2.2.2 then val else acc.2.2.2))
      (a, b, mn, mx)
      = (a + l.sum, b + (l.map (fun v => v * v)).sum, runMin mn l, runMax mx l) := by
  induction l generalizing a b mn mx with
  | nil => simp [runMin, runMax]
  | cons v t ih =>
    simp only [List.foldl_cons, ih, List.sum_cons, List.map_cons, runMin, runMax]
    simp [add_assoc]

/-- The running minimum is a lower bound on its initial value and on every
list member. -/
theorem runMin_le (mn : Int) (l : List Int) :
    runMin mn l ≤ mn ∧ ∀ v ∈ l, runMin mn l ≤ v := by
  induction l generalizing mn with
  | nil => simp [runMin]
  | cons v t ih =>
    have h := ih (if v < mn then v else mn)
    refine ⟨?_, ?_⟩
    · refine le_trans h.1 ?_
      split <;> omega
    · intro w hw
      rcases List.mem_cons.mp hw with h1 | h1
      · subst h1
        refine le_trans h.1 ?_
        split <;> omega
      · exact h.2 w h1

/-- The running minimum is the initial value or a list member. -/
theorem runMin_mem (mn : Int) (l : List Int) :
    runMin mn l = mn ∨ runMin mn l ∈ l := by
  induction l generalizing mn with
  | nil => simp [runMin]
  | cons v t ih =>
    have h := ih (if v < mn then v else mn)
    rcases h with h | h
    · rw [show runMin mn (v :: t) = runMin (if v < mn then v else mn) t from rfl, h]
      split
      · right; exact List.mem_cons_self _ _
      · left; rfl
    · right
      exact List.mem_cons_of_mem _ h

/-- The running maximum is an upper bound on its initial value and on
every list member. -/
theorem runMax_ge (mx : Int) (l : List Int) :
    mx ≤ runMax mx l ∧ ∀ v ∈ l, v ≤ runMax mx l := by
  induction l generalizing mx with
  | nil => simp [runMax]
  | cons v t ih =>
    have h := ih (if v > mx then v else mx)
    refine ⟨?_, ?_⟩
    · refine le_trans ?_ h.1
      split <;> omega
    · intro w hw
      rcases List.mem_cons.mp hw with h1 | h1
      · subst h1
        refine le_trans ?_ h.1
        split <;> omega
      · exact h.2 w h1

/-- The running maximum is the initial value or a list member. -/
theorem runMax_mem (mx : Int) (l : List Int) :
    runMax mx l = mx ∨ runMax mx l ∈ l := by
  induction l generalizing mx with
  | nil => simp [runMax]
  | cons v t ih =>
    have h := ih (if v > mx then v else mx)
    rcases h with h | h
    · rw [show runMax mx (v :: t) = runMax (if v > mx then v else mx) t from rfl, h]
      split
      · right; exact List.mem_cons_self _ _
      · left; rfl
    · right
      exact List.mem_cons_of_mem _ h

/-- C7: for every frame on which `FrameStats::new` returns (every
non-empty frame with `i64`-ranged samples), `min`/`max` are the extreme
sample values, `mean = sum/count`, the sample variance radicand is
`(sumsq - count*mean^2)/(count-1)` (so the code's standard deviation is
its square root), and the median is the element at index `count/2` of the
ascending-sorted copy of the samples; on `[1,2,3,4,5]` the results are
`min=1, max=5, mean=3, stddev=sqrt(2.5), median=3`. -/
theorem frameStats_spec :
    (∀ (frame : CameraFrameMono) (s : FrameStats),
        FrameStats.new frame = some s →
        (∀ v ∈ frame.rawdata, i64Min ≤ v ∧ v ≤ i64Max) →
        ((s.min ∈ frame.rawdata ∧ ∀ v ∈ frame.rawdata, s.min ≤ v)
        ∧ (s.max ∈ frame.rawdata ∧ ∀ v ∈ frame.rawdata, v ≤ s.max)
        ∧ s.mean = ((frame.rawdata.sum : ℤ) : ℚ) / ((frame.rawdata.length : ℕ) : ℚ)
        ∧ s.sample_variance =
            ((((frame.rawdata.map (fun v => v * v)).sum : ℤ) : ℚ)
              - ((frame.rawdata.length : ℕ) : ℚ) * s.mean * s.mean)
              / (((frame.rawdata.length : ℕ) : ℚ) - 1)
        ∧ List.Sorted (· ≤ ·) (List.insertionSort (· ≤ ·) frame.rawdata)
        ∧ (List.insertionSort (· ≤ ·) frame.rawdata).Perm frame.rawdata
        ∧ (List.insertionSort (· ≤ ·) frame.rawdata).get? (frame.rawdata.length / 2)
            = some s.median))
    ∧ (FrameStats.new f5).map FrameStats.min = some 1
    ∧ (FrameStats.new f5).map FrameStats.max = some 5
    ∧ (FrameStats.new f5).map FrameStats.mean = some 3
    ∧ (FrameStats.new f5).map FrameStats.median = some 3
    ∧ (FrameStats.new f5).map FrameStats.sample_variance = some (5 / 2)
    ∧ ((FrameStats.new f5).map fun st => Real.sqrt st.sample_variance)
        = some (Real.sqrt (5 / 2)) := by
  refine ⟨?_, rfl, rfl, ?_, rfl, ?_, ?_⟩
  · intro frame s h hbound
    simp only [FrameStats.new, statsFold_eq] at h
    split at h
    · exact absurd h (by simp)
    · rename_i med heq
      have hs := (Option.some.injEq _ _).mp h
      subst hs
      have hne : frame.rawdata ≠ [] := by
        intro hnil
        rw [hnil] at heq
        simp [List.insertionSort] at heq
      obtain ⟨v0, hv0⟩ := List.exists_mem_of_ne_nil _ hne
      refine ⟨⟨?_, ?_⟩, ⟨?_, ?_⟩, ?_, ?_, ?_, ?_, ?_⟩
      · rcases runMin_mem i64Max frame.rawdata with hm | hm
        · have h1 := (runMin_le i64Max frame.rawdata).2 v0 hv0
          have h2 := (hbound v0 hv0).2
          have : runMin i64Max frame.rawdata = v0 := by omega
          simpa [this] using hv0
        · exact hm
      · exact (runMin_le i64Max frame.rawdata).2
      · rcases runMax_mem i64Min frame.rawdata with hm | hm
        · have h1 := (runMax_ge i64Min frame.rawdata).2 v0 hv0
          have h2 := (hbound v0 hv0).1
          have : runMax i64Min frame.rawdata = v0 := by omega
          simpa [this] using hv0
        · exact hm
      · exact (runMax_ge i64Min frame.rawdata).2
      · simp
      · simp
      · exact List.sorted_insertionSort _ _
      · exact List.perm_insertionSort _ _
      · exact heq
  · show some (((15 : ℤ) : ℚ) / ((5 : ℕ) : ℚ)) = some 3
    norm_num
  · show some ((((55 : ℤ) : ℚ) - ((5 : ℕ) : ℚ) * (((15 : ℤ) : ℚ) / ((5 : ℕ) : ℚ))
        * (((15 : ℤ) : ℚ) / ((5 : ℕ) : ℚ))) / (((5 : ℕ) : ℚ) - 1)) = some (5 / 2)
    norm_num
  · have h0 : FrameStats.new f5 = some s5 := rfl
    have hv : s5.sample_variance = 5 / 2 := by
      show (((55 : ℤ) : ℚ) - ((5 : ℕ) : ℚ) * (((15 : ℤ) : ℚ) / ((5 : ℕ) : ℚ))
        * (((15 : ℤ) : ℚ) / ((5 : ℕ) : ℚ))) / (((5 : ℕ) : ℚ) - 1) = 5 / 2
      norm_num
    rw [h0, Option.map_some', hv]
    norm_num

/-- Witness for C7: the general statistics characterization applied to
the concrete frame `[1,2,3,4,5]`. -/
theorem frameStats_spec_witness :
    FrameStats.new f5 = some s5
    ∧ (∀ v ∈ f5.rawdata, i64Min ≤ v ∧ v ≤ i64Max)
    ∧ ((s5.min ∈ f5.rawdata ∧ ∀ v ∈ f5.rawdata, s5.min ≤ v)
      ∧ (s5.max ∈ f5.rawdata ∧ ∀ v ∈ f5.rawdata, v ≤ s5.max)
      ∧ s5.mean = ((f5.rawdata.sum : ℤ) : ℚ) / ((f5.rawdata.length : ℕ) : ℚ)
      ∧ s5.sample_variance =
          ((((f5.rawdata.map (fun v => v * v)).sum : ℤ) : ℚ)
            - ((f5.rawdata.length : ℕ) : ℚ) * s5.mean * s5.mean)
            / (((f5.rawdata.length : ℕ) : ℚ) - 1)
      ∧ List.Sorted (· ≤ ·) (List.insertionSort (· ≤ ·) f5.rawdata)
      ∧ (List.insertionSort (· ≤ ·) f5.rawdata).Perm f5.rawdata
      ∧ (List.insertionSort (· ≤ ·) f5.rawdata).get? (f5.rawdata.length / 2)
          = some s5.median) :=
  ⟨rfl, by decide, frameStats_spec.1 f5 s5 rfl (by decide)⟩

/-- The coordinate-sum fold of the centroid computation splits into the
sums of rows and of columns. -/
theorem coordFold_eq (ind : List (Nat × Nat)) (a b : Nat) :
    ind.foldl (fun (acc : Nat × Nat) rc => (acc.1 + rc.1, acc.2 + rc.2)) (a, b)
      = (a + (ind.map Prod.fst).sum, b + (ind.map Prod.snd).sum) := by
  induction ind generalizing a b with
  | nil => simp
  | cons rc t ih =>
    simp only [List.foldl_cons, ih, List.map_cons, List.sum_cons]
    simp [add_assoc]

/-- The moment fold of the centroid computation: the x-term accumulates
the sum of `value*(col - ccol)`, the y-term stays at its initial value
(it adds `value*(crow - crow) = 0` at every member), and the mass term
accumulates the sum of the values. -/
theorem momentFold_eq (pix : List Int) (cols : Nat) (crow ccol : ℚ)
    (ind : List (Nat × Nat)) (a b c : ℚ) :
    ind.foldl
      (fun (acc : ℚ × ℚ × ℚ) rc =>
        let val : ℚ := (pix.getD (rc.1 * cols + rc.2) 0 : Int)
        (acc.1 + val * ((rc.2 : ℚ) - ccol),
         acc.2.1 + val * (crow - crow),
         acc.2.2 + val))
      (a, b, c)
      = (a + (ind.map (fun rc => ((pix.getD (rc.1 * cols + rc.2) 0 : Int) : ℚ)
            * ((rc.2 : ℚ) - ccol))).sum,
         b,
         c + (ind.map (fun rc => ((pix.getD (rc.1 * cols + rc.2) 0 : Int) : ℚ))).sum) := by
  induction ind generalizing a b c with
  | nil => simp
  | cons rc t ih =>
    simp only [List.foldl_cons, ih, List.map_cons, List.sum_cons]
    simp [add_assoc]

/-- Closed form of `computeSegment`: the centroid is
`(sumx/mass + centerCol, centerRow)` — the y-component degenerates to the
plain mean row because the y-accumulation subtracts `centerRow` from
itself — and the mass is the sum of member values. -/
theorem computeSegment_eq (pix : List Int) (cols : Nat) (ind : List (Nat × Nat)) :
    computeSegment pix cols ind =
      { indices := ind
        centroid := (segSumX pix cols ind / segMass pix cols ind + meanCol ind,
          meanRow ind)
        mass := segMass pix cols ind } := by
  simp only [computeSegment, coordFold_eq, momentFold_eq, Nat.zero_add, zero_add]
  have hrow : ((((ind.map Prod.fst).sum : Nat) : ℚ)) / ((ind.length : Nat) : ℚ)
      = meanRow ind := by
    simp [meanRow, Nat.cast_list_sum, List.map_map, Function.comp_def]
  have hcol : ((((ind.map Prod.snd).sum : Nat) : ℚ)) / ((ind.length : Nat) : ℚ)
      = meanCol ind := by
    simp [meanCol, Nat.cast_list_sum, List.map_map, Function.comp_def]
  rw [hrow, hcol]
  simp [segSumX, segMass, zero_div]

/-- C2: every segment returned by `find_stars` (in particular every
segment surviving the size filter) with positive mass has a y-accumulation
term that is identically zero, so the second centroid component is exactly
the unweighted mean row of its member coordinates, while the first equals
`sumx/mass + centerCol` with `sumx` accumulated as `value*(col -
centerCol)`; the mass is the sum of member values. -/
theorem find_stars_centroid_degenerate_y (pix : List Int) (rows cols : Nat)
    (thresh : Int) (minsize : Nat) (seg : Segment)
    (hmem : seg ∈ find_stars pix rows cols thresh minsize)
    (hmass : 0 < seg.mass) :
    (seg.indices.map (fun rc => ((pix.getD (rc.1 * cols + rc.2) 0 : Int) : ℚ)
        * (meanRow seg.indices - meanRow seg.indices))).sum = 0
    ∧ seg.centroid.2 = meanRow seg.indices
    ∧ seg.centroid.1 =
        segSumX pix cols seg.indices / segMass pix cols seg.indices
          + meanCol seg.indices
    ∧ seg.mass = segMass pix cols seg.indices := by
  have hmem2 : seg ∈ (((labelPass pix rows cols thresh).segs.filter
      (fun ind => decide (minsize ≤ ind.length))).map (computeSegment pix cols)) := by
    have hperm := List.perm_insertionSort (fun a b : Segment => a.mass ≤ b.mass)
      (((labelPass pix rows cols thresh).segs.filter
        (fun ind => decide (minsize ≤ ind.length))).map (computeSegment pix cols))
    exact hperm.mem_iff.mp hmem
  obtain ⟨ind, _hind, hseg⟩ := List.mem_map.mp hmem2
  subst hseg
  rw [computeSegment_eq]
  refine ⟨?_, rfl, rfl, rfl⟩
  simp

/-- The concrete segment of the C2 witness is in the detector output. -/
theorem segC2_mem : segC2 ∈ find_stars pixC2 2 2 5 2 :=
  List.mem_singleton.mpr rfl

/-- The concrete segment of the C2 witness has positive mass. -/
theorem segC2_mass_pos : 0 < segC2.mass := by
  show (0 : ℚ) < 0 + ((10 : ℤ) : ℚ) + ((10 : ℤ) : ℚ)
  norm_num

/-- Witness for C2 at the concrete two-pixel segment. -/
theorem find_stars_centroid_degenerate_y_witness :
    segC2 ∈ find_stars pixC2 2 2 5 2
    ∧ 0 < segC2.mass
    ∧ ((segC2.indices.map (fun rc => ((pixC2.getD (rc.1 * 2 + rc.2) 0 : Int) : ℚ)
          * (meanRow segC2.indices - meanRow segC2.indices))).sum = 0
      ∧ segC2.centroid.2 = meanRow segC2.indices
      ∧ segC2.centroid.1 =
          segSumX pixC2 2 segC2.indices / segMass pixC2 2 segC2.indices
            + meanCol segC2.indices
      ∧ segC2.mass = segMass pixC2 2 segC2.indices) :=
  ⟨segC2_mem, segC2_mass_pos,
    find_stars_centroid_degenerate_y pixC2 2 2 5 2 segC2 segC2_mem segC2_mass_pos⟩

/-- Length of the fuel-driven chunker: with positive chunk size and enough
fuel it yields `length / k` chunks. -/
theorem chunksExactGo_length {α : Type} (k : Nat) (hk : 0 < k) :
    ∀ (fuel : Nat) (l : List α), l.length ≤ fuel →
      (chunksExactGo k fuel l).length = l.length / k := by
  intro fuel
  induction fuel with
  | zero =>
    intro l hl
    have : l.length = 0 := by omega
    simp [chunksExactGo, this, Nat.zero_div]
  | succ n ih =>
    intro l hl
    by_cases h : k ≤ l.length
    · have hdrop : (l.drop k).length ≤ n := by
        simp only [List.length_drop]
        omega
      have hrec := ih (l.drop k) hdrop
      simp only [chunksExactGo, if_pos (And.intro hk h), List.length_cons, hrec,
        List.length_drop]
      rw [Nat.div_eq l.length k, if_pos (And.intro hk h)]
    · simp only [chunksExactGo, if_neg (by omega : ¬ (0 < k ∧ k ≤ l.length))]
      rw [Nat.div_eq_of_lt (by omega)]
      rfl

/-- `chunks_exact(k)` yields `len / k` chunks when `k > 0`. -/
theorem chunksExact_length {α : Type} (k : Nat) (hk : 0 < k) (l : List α) :
    (chunksExact k l).length = l.length / k :=
  chunksExactGo_length k hk l.length l le_rfl

/-- A color id outside the enumerated table maps to `InvalidColorID`. -/
theorem tryFrom_not_mem (v : Nat)
    (hv : v ∉ ([0, 8, 9, 10, 11, 16, 17, 18, 19, 100, 101] : List Nat)) :
    ColorID.tryFrom v = .error (.invalidColorID v) := by
  simp only [List.mem_cons, List.not_mem_nil, or_false] at hv
  push_neg at hv
  obtain ⟨h0, h8, h9, h10, h11, h16, h17, h18, h19, h100, h101⟩ := hv
  simp only [ColorID.tryFrom, if_neg h0, if_neg h8, if_neg h9, if_neg h10,
    if_neg h11, if_neg h16, if_neg h17, if_neg h18, if_neg h19, if_neg h100,
    if_neg h101]

/-- C5 (amended): whenever the 178-byte header is readable and the first
14 bytes decode as UTF-8 to something other than the magic string, the
parse fails with the header-malformed error and yields no frames; and
whenever the magic matches but the color-encoding id at bytes [18:22] is
outside the enumerated table, the parse fails with the unknown-color-id
error carrying that value.  (An input shorter than 178 bytes fails
earlier with an I/O error, and a magic region that is not valid UTF-8
fails with the propagated UTF-8 error.) -/
theorem serfile_header_errors (input : List Nat) :
    (∀ s, 178 ≤ input.length → utf8Decode (input.take 14) = some s →
      s ≠ magicScalars → SERFile.new input = .error .invalidHeader)
    ∧ (∀ v, 178 ≤ input.length → utf8Decode (input.take 14) = some magicScalars →
        leVal ((input.drop 18).take 4) = v →
        v ∉ ([0, 8, 9, 10, 11, 16, 17, 18, 19, 100, 101] : List Nat) →
        SERFile.new input = .error (.invalidColorID v)) := by
  have htake : (input.take 178).take 14 = input.take 14 := by
    rw [List.take_take]
    norm_num
  constructor
  · intro s hlen hdec hneq
    simp only [SERFile.new, if_neg (by omega : ¬ input.length < 178), htake, hdec]
    rw [if_pos hneq]
  · intro v hlen hdec hval hv
    have hslice : ((input.take 178).drop 18).take 4 = (input.drop 18).take 4 := by
      rw [List.drop_take, List.take_take]
      norm_num
    simp only [SERFile.new, if_neg (by omega : ¬ input.length < 178), htake, hdec]
    rw [if_neg (by simp : ¬ magicScalars ≠ magicScalars), hslice, hval,
      tryFrom_not_mem v hv]

/-- Witness for C5 at two concrete 178-byte inputs: one with a corrupted
(all-NUL) magic string, one with a correct magic and color id 7. -/
theorem serfile_header_errors_witness :
    (178 ≤ c5aInput.length
      ∧ utf8Decode (c5aInput.take 14) = some (List.replicate 14 0)
      ∧ List.replicate 14 0 ≠ magicScalars
      ∧ SERFile.new c5aInput = .error .invalidHeader)
    ∧ (178 ≤ c5bInput.length
      ∧ utf8Decode (c5bInput.take 14) = some magicScalars
      ∧ leVal ((c5bInput.drop 18).take 4) = 7
      ∧ (7 : Nat) ∉ ([0, 8, 9, 10, 11, 16, 17, 18, 19, 100, 101] : List Nat)
      ∧ SERFile.new c5bInput = .error (.invalidColorID 7)) :=
  ⟨⟨by decide, by decide, by decide,
    (serfile_header_errors c5aInput).1 (List.replicate 14 0) (by decide)
      (by decide) (by decide)⟩,
   ⟨by decide, by decide, by decide, by decide,
    (serfile_header_errors c5bInput).2 7 (by decide) (by decide) (by decide)
      (by decide)⟩⟩

/-- C5 counterexample: an input whose first 14 bytes differ from the magic
string (they are 0xFF, hence not valid UTF-8) and whose color id is the
unmapped value 7; the parse fails, but with the propagated UTF-8 error,
not with the header-malformed error and not with the unknown-color-id
error the claim requires for every such input. -/
theorem serfile_header_errors_counterexample :
    c5Bad.take 14 ≠ magicScalars
    ∧ leVal ((c5Bad.drop 18).take 4) = 7
    ∧ (7 : Nat) ∉ ([0, 8, 9, 10, 11, 16, 17, 18, 19, 100, 101] : List Nat)
    ∧ SERFile.new c5Bad = .error .utf8Error
    ∧ SERFile.new c5Bad ≠ .error .invalidHeader
    ∧ SERFile.new c5Bad ≠ .error (.invalidColorID 7) := by decide

/-- Inversion of a successful container parse: the header was readable,
the three text fields come from the fixed header slices (observer
[42:82], instrument [82:122], telescope [122:152]) UTF-8 decoded and
trimmed, the stored dimensions are the decoded header fields, and the
frame list has `frame_count` entries, each a 16-bit ColMajor buffer with
`rows = width` and `cols = height`. -/
theorem serNew_ok_inv (input : List Nat) (s : SERFile)
    (h : SERFile.new input = .ok s) :
    178 ≤ input.length
    ∧ (∃ t, utf8Decode (((input.take 178).drop 42).take 40) = some t
        ∧ s.observer = rustTrim t)
    ∧ (∃ t, utf8Decode (((input.take 178).drop 82).take 40) = some t
        ∧ s.instrument = rustTrim t)
    ∧ (∃ t, utf8Decode (((input.take 178).drop 122).take 30) = some t
        ∧ s.telescope = rustTrim t)
    ∧ s.width = leVal (((input.take 178).drop 26).take 4)
    ∧ s.height = leVal (((input.take 178).drop 30).take 4)
    ∧ s.frame_count = leVal (((input.take 178).drop 38).take 4)
    ∧ s.frames.length = s.frame_count
    ∧ (∀ fr ∈ s.frames, fr.isMono16 = true ∧ fr.rows = s.width
        ∧ fr.cols = s.height ∧ fr.pixelOrder = PixelOrder.ColMajor) := by
  simp only [SERFile.new] at h
  split at h
  · exact absurd h (by simp)
  rename_i hlen
  split at h
  · exact absurd h (by simp)
  rename_i magic hmagic
  split at h
  · exact absurd h (by simp)
  rename_i hmagicEq
  split at h
  · exact absurd h (by simp)
  rename_i color hcolor
  split at h
  · exact absurd h (by simp)
  rename_i endian hendian
  split at h
  · exact absurd h (by simp)
  rename_i observer hobs
  split at h
  · exact absurd h (by simp)
  rename_i instrument hinst
  split at h
  · exact absurd h (by simp)
  rename_i telescope htel
  split at h
  · exact absurd h (by simp)
  rename_i hbuf
  split at h
  · exact absurd h (by simp)
  rename_i htimebuf
  split at h
  · exact absurd h (by simp)
  rename_i hfb
  rw [Except.ok.injEq] at h
  subst h
  refine ⟨by omega, ⟨observer, hobs, rfl⟩, ⟨instrument, hinst, rfl⟩,
    ⟨telescope, htel, rfl⟩, rfl, rfl, rfl, ?_, ?_⟩
  · simp only [List.length_map, List.enum_length]
    rw [chunksExact_length _ (Nat.pos_of_ne_zero hfb), List.length_take]
    rw [min_eq_left (by omega)]
    exact Nat.mul_div_cancel_left _ (Nat.pos_of_ne_zero hfb)
  · intro fr hfr
    simp only [List.mem_map] at hfr
    obtain ⟨p, hp, hfr⟩ := hfr
    subst hfr
    exact ⟨rfl, rfl, rfl, rfl⟩

/-- C6 (amended): for every successfully parsed container, the telescope
text is decoded from the fixed 30-byte field at bytes 122..152 (not a
40-byte field to 162), trimmed, while observer [42:82] and instrument
[82:122] are 40-byte fields, trimmed. -/
theorem serfile_text_fields (input : List Nat) (s : SERFile)
    (h : SERFile.new input = .ok s) :
    (utf8Decode ((input.drop 42).take 40)).map rustTrim = some s.observer
    ∧ (utf8Decode ((input.drop 82).take 40)).map rustTrim = some s.instrument
    ∧ (utf8Decode ((input.drop 122).take 30)).map rustTrim = some s.telescope := by
  obtain ⟨hlen, ⟨o, ho, ho2⟩, ⟨i, hi, hi2⟩, ⟨t, ht, ht2⟩, _⟩ := serNew_ok_inv input s h
  have hs42 : ((input.take 178).drop 42).take 40 = (input.drop 42).take 40 := by
    rw [List.drop_take, List.take_take]
    norm_num
  have hs82 : ((input.take 178).drop 82).take 40 = (input.drop 82).take 40 := by
    rw [List.drop_take, List.take_take]
    norm_num
  have hs122 : ((input.take 178).drop 122).take 30 = (input.drop 122).take 30 := by
    rw [List.drop_take, List.take_take]
    norm_num
  rw [hs42] at ho
  rw [hs82] at hi
  rw [hs122] at ht
  rw [ho, hi, ht]
  simp [ho2, hi2, ht2]

/-- Witness for C6 at the concrete container `c10Input`. -/
theorem serfile_text_fields_witness :
    SERFile.new c10Input = .ok c10Data
    ∧ ((utf8Decode ((c10Input.drop 42).take 40)).map rustTrim = some c10Data.observer
      ∧ (utf8Decode ((c10Input.drop 82).take 40)).map rustTrim = some c10Data.instrument
      ∧ (utf8Decode ((c10Input.drop 122).take 30)).map rustTrim = some c10Data.telescope) :=
  ⟨by decide, serfile_text_fields c10Input c10Data (by decide)⟩

/-- C6 counterexample: a successfully parsed container whose telescope
field is `"TEL"` padded to 30 bytes with spaces, with ten `'X'` bytes at
offsets 152..162; the parser returns `"TEL"`, whereas decoding the
40-byte field 122..162 of the claim would keep the `'X'` bytes. -/
theorem serfile_telescope_forty_byte_counterexample :
    (SERFile.new c6Input).toOption.map SERFile.telescope = some [84, 69, 76]
    ∧ telescopeSpec40 c6Input =
        some ([84, 69, 76] ++ List.replicate 27 32 ++ List.replicate 10 88)
    ∧ (SERFile.new c6Input).toOption.map SERFile.telescope ≠ telescopeSpec40 c6Input := by
  decide

/-- C10: for every successfully parsed container, the frame list has
exactly `frame_count` entries, and each frame is a 16-bit buffer built
with the header's width as its row count and the header's height as its
column count, in ColMajor order. -/
theorem serfile_frames_shape (input : List Nat) (s : SERFile)
    (h : SERFile.new input = .ok s) :
    s.frames.length = s.frame_count
    ∧ s.width = leVal (((input.take 178).drop 26).take 4)
    ∧ s.height = leVal (((input.take 178).drop 30).take 4)
    ∧ ∀ fr ∈ s.frames, fr.isMono16 = true ∧ fr.rows = s.width
        ∧ fr.cols = s.height ∧ fr.pixelOrder = PixelOrder.ColMajor := by
  obtain ⟨_, _, _, _, hw, hh, _, hlen2, hfr⟩ := serNew_ok_inv input s h
  exact ⟨hlen2, hw, hh, hfr⟩

/-- Witness for C10 at the concrete container `c10Input`. -/
theorem serfile_frames_shape_witness :
    SERFile.new c10Input = .ok c10Data
    ∧ (c10Data.frames.length = c10Data.frame_count
      ∧ c10Data.width = leVal (((c10Input.take 178).drop 26).take 4)
      ∧ c10Data.height = leVal (((c10Input.take 178).drop 30).take 4)
      ∧ ∀ fr ∈ c10Data.frames, fr.isMono16 = true ∧ fr.rows = c10Data.width
          ∧ fr.cols = c10Data.height ∧ fr.pixelOrder = PixelOrder.ColMajor) :=
  ⟨by decide, serfile_frames_shape c10Input c10Data (by decide)⟩

/-- A neighbor check against a pixel that does not exceed the threshold
leaves the labeling state unchanged. -/
theorem tryLink_not_bright (pix : List Int) (cols : Nat) (thresh : Int)
    (idx nbr : Nat) (s : LabelState) (h : ¬ thresh < pix.getD nbr 0) :
    tryLink pix cols thresh idx s nbr = s := by
  simp only [tryLink, if_neg (fun hab => h (And.right hab))]

/-- A labeling step at a pixel that does not exceed the threshold is the
identity. -/
theorem stepPix_not_bright (pix : List Int) (rows cols : Nat) (thresh : Int)
    (s : LabelState) (idx : Nat) (h : ¬ thresh < pix.getD idx 0) :
    stepPix pix rows cols thresh s idx = s := by
  simp only [stepPix, if_neg h]

/-- Folding the labeling step over indices at which no pixel exceeds the
threshold is the identity. -/
theorem foldl_stepPix_not_bright (pix : List Int) (rows cols : Nat)
    (thresh : Int) (l : List Nat) (s : LabelState)
    (h : ∀ i ∈ l, ¬ thresh < pix.getD i 0) :
    l.foldl (stepPix pix rows cols thresh) s = s := by
  induction l generalizing s with
  | nil => rfl
  | cons a t ih =>
    rw [List.foldl_cons,
      stepPix_not_bright pix rows cols thresh s a (h a (List.mem_cons_self a t)),
      ih s (fun i hi => h i (List.mem_cons_of_mem a hi))]

/-- A labeling step at an already-labeled bright pixel whose guarded
forward neighbors are all below the threshold is the identity. -/
theorem stepPix_no_change (pix : List Int) (rows cols : Nat) (thresh : Int)
    (s : LabelState) (idx : Nat)
    (hb : thresh < pix.getD idx 0)
    (hm : ¬ s.mask.getD idx (-1) = -1)
    (h1 : idx % cols + 1 < cols → ¬ thresh < pix.getD (idx + 1) 0)
    (h2 : idx / cols < rows - 1 → 0 < idx % cols →
      ¬ thresh < pix.getD (idx + cols - 1) 0)
    (h3 : idx / cols < rows - 1 → ¬ thresh < pix.getD (idx + cols) 0)
    (h4 : idx / cols < rows - 1 → idx % cols + 1 < cols →
      ¬ thresh < pix.getD (idx + cols + 1) 0) :
    stepPix pix rows cols thresh s idx = s := by
  simp only [stepPix, if_pos hb, if_neg hm]
  by_cases g2 : idx / cols < rows - 1
  · by_cases g1 : idx % cols + 1 < cols
    · by_cases g3 : 0 < idx % cols
      · simp only [if_pos g1, if_pos g2, if_pos g3]
        rw [tryLink_not_bright pix cols thresh idx (idx + 1) s (h1 g1),
          tryLink_not_bright pix cols thresh idx (idx + cols - 1) s (h2 g2 g3),
          tryLink_not_bright pix cols thresh idx (idx + cols) s (h3 g2),
          tryLink_not_bright pix cols thresh idx (idx + cols + 1) s (h4 g2 g1)]
      · simp only [if_pos g1, if_pos g2, if_neg g3]
        rw [tryLink_not_bright pix cols thresh idx (idx + 1) s (h1 g1),
          tryLink_not_bright pix cols thresh idx (idx + cols) s (h3 g2),
          tryLink_not_bright pix cols thresh idx (idx + cols + 1) s (h4 g2 g1)]
    · by_cases g3 : 0 < idx % cols
      · simp only [if_neg g1, if_pos g2, if_pos g3]
        rw [tryLink_not_bright pix cols thresh idx (idx + cols - 1) s (h2 g2 g3),
          tryLink_not_bright pix cols thresh idx (idx + cols) s (h3 g2)]
      · simp only [if_neg g1, if_pos g2, if_neg g3]
        rw [tryLink_not_bright pix cols thresh idx (idx + cols) s (h3 g2)]
  · by_cases g1 : idx % cols + 1 < cols
    · simp only [if_pos g1, if_neg g2]
      rw [tryLink_not_bright pix cols thresh idx (idx + 1) s (h1 g1)]
    · simp only [if_neg g1, if_neg g2]

/-- The labeling step at pixel 0 when exactly pixels 0 and `cols+1`
exceed the threshold: a new segment with label 0 is created at (0,0) and
the below-right neighbor (1,1) is assigned the same label and appended to
that very segment. -/
theorem step0_eq (pix : List Int) (rows cols : Nat) (thresh : Int)
    (hr : 2 ≤ rows) (hc : 2 ≤ cols)
    (hb0 : thresh < pix.getD 0 0)
    (hnb1 : ¬ thresh < pix.getD 1 0)
    (hnbc : ¬ thresh < pix.getD cols 0)
    (hb11 : thresh < pix.getD (cols + 1) 0) :
    stepPix pix rows cols thresh
      { mask := List.replicate (rows * cols) (-1), segs := [], segment_count := 0 } 0
      = { mask := ((List.replicate (rows * cols) (-1)).set 0 0).set (cols + 1) 0,
          segs := [[(0, 0), (1, 1)]], segment_count := 1 } := by
  have h4n : 4 ≤ rows * cols := by
    calc (4 : Nat) = 2 * 2 := rfl
      _ ≤ rows * cols := Nat.mul_le_mul hr hc
  have h2c : 2 * cols ≤ rows * cols := Nat.mul_le_mul_right cols hr
  have hc1n : cols + 1 < rows * cols := by omega
  have h0n : 0 < rows * cols := by omega
  have hmask0 : (List.replicate (rows * cols) (-1) : List Int).getD 0 (-1) = -1 := by
    rw [List.getD_eq_getElem?_getD, List.getElem?_replicate, if_pos h0n]
    rfl
  have hmaskSet0 : ((List.replicate (rows * cols) (-1)).set 0 0 : List Int).getD 0 (-1) = 0 := by
    rw [List.getD_eq_getElem?_getD,
      List.getElem?_set_self (by simpa using h0n)]
    rfl
  have hmaskSetC1 : ((List.replicate (rows * cols) (-1)).set 0 0 : List Int).getD (cols + 1) (-1) = -1 := by
    rw [List.getD_eq_getElem?_getD, List.getElem?_set_ne (by omega),
      List.getElem?_replicate, if_pos hc1n]
    rfl
  have hg1 : 1 < cols := by omega
  have hg2 : 0 < rows - 1 := by omega
  have hdiv : (cols + 1) / cols = 1 := by
    rw [Nat.add_comm, Nat.add_div_right 1 (by omega : 0 < cols),
      Nat.div_eq_of_lt (by omega : 1 < cols)]
  have hmod : (cols + 1) % cols = 1 := by
    rw [Nat.add_mod_left, Nat.mod_eq_of_lt (by omega : 1 < cols)]
  simp only [stepPix, if_pos hb0, hmask0, Nat.zero_div, Nat.zero_mod, zero_add,
    List.nil_append, eq_self_iff_true, ite_true, hg1, hg2, lt_self_iff_false,
    ite_false]
  rw [tryLink_not_bright pix cols thresh 0 1 _ hnb1,
    tryLink_not_bright pix cols thresh 0 cols _ hnbc]
  simp only [tryLink, hmaskSetC1, hmaskSet0, hb11, eq_self_iff_true, and_self,
    ite_true, hdiv, hmod, Int.toNat_zero, List.modify, List.modifyTailIdx,
    List.modifyHead, List.singleton_append]

/-- Bounds of membership in a step-1 range. -/
theorem mem_range'_bounds {m s n : Nat} (h : m ∈ List.range' s n) :
    s ≤ m ∧ m < s + n := by
  obtain ⟨i, hi, rfl⟩ := List.mem_range'.mp h
  omega

/-- The labeling step at pixel `cols+1` after the step at pixel 0: the
pixel is bright but already labeled, and every guarded forward neighbor is
dark, so the state is unchanged. -/
theorem stepAtC1_eq (pix : List Int) (rows cols : Nat) (thresh : Int)
    (hr : 2 ≤ rows) (hc : 2 ≤ cols)
    (hb11 : thresh < pix.getD (cols + 1) 0)
    (hn1 : 2 < cols → ¬ thresh < pix.getD (cols + 1 + 1) 0)
    (hn2 : 2 < rows → ¬ thresh < pix.getD (cols + 1 + cols - 1) 0)
    (hn3 : 2 < rows → ¬ thresh < pix.getD (cols + 1 + cols) 0)
    (hn4 : 2 < rows → 2 < cols → ¬ thresh < pix.getD (cols + 1 + cols + 1) 0) :
    stepPix pix rows cols thresh
      { mask := ((List.replicate (rows * cols) (-1)).set 0 0).set (cols + 1) 0,
        segs := [[(0, 0), (1, 1)]], segment_count := 1 } (cols + 1)
      = { mask := ((List.replicate (rows * cols) (-1)).set 0 0).set (cols + 1) 0,
          segs := [[(0, 0), (1, 1)]], segment_count := 1 } := by
  have h2c : 2 * cols ≤ rows * cols := Nat.mul_le_mul_right cols hr
  have hc1n : cols + 1 < rows * cols := by omega
  have hdiv : (cols + 1) / cols = 1 := by
    rw [Nat.add_comm, Nat.add_div_right 1 (by omega : 0 < cols),
      Nat.div_eq_of_lt (by omega : 1 < cols)]
  have hmod : (cols + 1) % cols = 1 := by
    rw [Nat.add_mod_left, Nat.mod_eq_of_lt (by omega : 1 < cols)]
  have hlenss : cols + 1 < ((List.replicate (rows * cols) (-1)).set 0 0 : List Int).length := by
    simpa using hc1n
  have hmaskC1 : (((List.replicate (rows * cols) (-1)).set 0 0).set (cols + 1) 0 : List Int).getD (cols + 1) (-1) = 0 := by
    rw [List.getD_eq_getElem?_getD, List.getElem?_set_self hlenss]
    rfl
  apply stepPix_no_change
  · exact hb11
  · simp only [hmaskC1]
    decide
  · intro g1
    rw [hmod] at g1
    exact hn1 (by omega)
  · intro g2 _
    rw [hdiv] at g2
    exact hn2 (by omega)
  · intro g2
    rw [hdiv] at g2
    exact hn3 (by omega)
  · intro g2 g4
    rw [hdiv] at g2
    rw [hmod] at g4
    exact hn4 (by omega) (by omega)

/-- The full labeling pass on a frame in which exactly the pixels at
indices 0 and `cols+1` exceed the threshold produces exactly one segment,
holding both coordinates. -/
theorem labelPass_two_bright (pix : List Int) (rows cols : Nat) (thresh : Int)
    (hr : 2 ≤ rows) (hc : 2 ≤ cols) (hlen : pix.length = rows * cols)
    (hbright : ∀ i < rows * cols, (thresh < pix.getD i 0 ↔ (i = 0 ∨ i = cols + 1))) :
    (labelPass pix rows cols thresh).segs = [[(0, 0), (1, 1)]] := by
  have h4n : 4 ≤ rows * cols := by
    calc (4 : Nat) = 2 * 2 := rfl
      _ ≤ rows * cols := Nat.mul_le_mul hr hc
  have h2c : 2 * cols ≤ rows * cols := Nat.mul_le_mul_right cols hr
  have h3c : 2 < rows → 3 * cols ≤ rows * cols := fun h =>
    Nat.mul_le_mul_right cols (by omega)
  have hc1n : cols + 1 < rows * cols := by omega
  have hb0 : thresh < pix.getD 0 0 := (hbright 0 (by omega)).mpr (Or.inl rfl)
  have hb11 : thresh < pix.getD (cols + 1) 0 := (hbright (cols + 1) hc1n).mpr (Or.inr rfl)
  have hdark : ∀ i, i < rows * cols → i ≠ 0 → i ≠ cols + 1 →
      ¬ thresh < pix.getD i 0 := by
    intro i hi h0 h1 hb
    rcases (hbright i hi).mp hb with h | h
    · exact h0 h
    · exact h1 h
  have hnb1 : ¬ thresh < pix.getD 1 0 := hdark 1 (by omega) (by omega) (by omega)
  have hnbc : ¬ thresh < pix.getD cols 0 := hdark cols (by omega) (by omega) (by omega)
  rw [labelPass, hlen]
  obtain ⟨k, hk⟩ : ∃ k, rows * cols = (k + 1) + (cols + 1) :=
    ⟨rows * cols - (cols + 2), by omega⟩
  have hsplit : List.range (rows * cols)
      = List.range' 0 (cols + 1) ++ List.range' (cols + 1) (k + 1) := by
    rw [List.range_eq_range', hk, ← List.range'_append_1 0 (cols + 1) (k + 1),
      Nat.zero_add]
  rw [hsplit, List.foldl_append]
  rw [List.range'_succ]
  simp only [Nat.zero_add]
  rw [List.foldl_cons]
  rw [step0_eq pix rows cols thresh hr hc hb0 hnb1 hnbc hb11]
  rw [foldl_stepPix_not_bright pix rows cols thresh (List.range' 1 cols) _
    (by
      intro i hi
      have hb := mem_range'_bounds hi
      exact hdark i (by omega) (by omega) (by omega))]
  rw [List.range'_succ, List.foldl_cons]
  rw [stepAtC1_eq pix rows cols thresh hr hc hb11
    (by
      intro hcc
      exact hdark (cols + 1 + 1) (by omega) (by omega) (by omega))
    (by
      intro hrr
      have := h3c hrr
      exact hdark (cols + 1 + cols - 1) (by omega) (by omega) (by omega))
    (by
      intro hrr
      have := h3c hrr
      exact hdark (cols + 1 + cols) (by omega) (by omega) (by omega))
    (by
      intro hrr hcc
      have := h3c hrr
      exact hdark (cols + 1 + cols + 1) (by omega) (by omega) (by omega))]
  rw [foldl_stepPix_not_bright pix rows cols thresh
    (List.range' (cols + 1 + 1) k) _
    (by
      intro i hi
      have hb := mem_range'_bounds hi
      exact hdark i (by omega) (by omega) (by omega))]

/-- C1: on a frame with `samples.len() == rows*cols` in which exactly the
pixels at (0,0) and (1,1) exceed the detection threshold, `find_stars`
(with the default minimum size 2) reports the two pixels as a single
segment `[(0,0), (1,1)]`, not two: the forward propagation assigns the
below-right neighbor the current pixel's label. -/
theorem find_stars_below_right_single_segment (pix : List Int) (rows cols : Nat)
    (thresh : Int) (hr : 2 ≤ rows) (hc : 2 ≤ cols)
    (hlen : pix.length = rows * cols)
    (hbright : ∀ i < rows * cols, (thresh < pix.getD i 0 ↔ (i = 0 ∨ i = cols + 1))) :
    (find_stars pix rows cols thresh 2).map Segment.indices = [[(0, 0), (1, 1)]] := by
  have hlp := labelPass_two_bright pix rows cols thresh hr hc hlen hbright
  simp only [find_stars, hlp]
  rfl

/-- Witness for C1 on the concrete 2x2 frame `[10, 0, 0, 10]` with
threshold 5. -/
theorem find_stars_below_right_single_segment_witness :
    (2 ≤ 2 ∧ 2 ≤ 2 ∧ pixC2.length = 2 * 2
      ∧ ∀ i < 2 * 2, (5 < pixC2.getD i 0 ↔ (i = 0 ∨ i = 2 + 1)))
    ∧ (find_stars pixC2 2 2 5 2).map Segment.indices = [[(0, 0), (1, 1)]] :=
  ⟨⟨le_rfl, le_rfl, by decide, by decide⟩,
   find_stars_below_right_single_segment pixC2 2 2 5 le_rfl le_rfl (by decide)
     (by decide)⟩
